import Mathlib

/-!
Verification of the section-aware document chunker and index builder of this
repository (`split_prd.py`, `create_embeddings_index.py`).

The Python code is shallowly embedded: each Python string primitive the
scripts use is modelled as an executable Lean function on `String`
(operating on the underlying character list `String.data`, so that concrete
inputs evaluate in the kernel), and each script function is translated
statement by statement.  Machine arithmetic is `Nat`.  The single floating
point expression in the source, `current_size > chunk_size * 0.7`, is
modelled by the exact comparison `10 * current_size > 7 * chunk_size`.
-/

/-! ## Python string primitives -/

/-- The whitespace characters stripped by Python `str.strip()` (ASCII range;
the documents this repository processes contain no exotic Unicode spaces). -/
def pySpace (c : Char) : Bool :=
  c = ' ' || c = '\t' || c = '\n' || c = '\r' || c = '\x0b' || c = '\x0c'

/-- Drop the characters satisfying `p` from both ends of a character list
(Python `str.strip(chars)`). -/
def pyStripChars (p : Char → Bool) (l : List Char) : List Char :=
  ((l.dropWhile p).reverse.dropWhile p).reverse

/-- Python `line.strip()`. -/
def pyStrip (s : String) : String :=
  String.mk (pyStripChars pySpace s.data)

/-- Split a character list at every occurrence of `sep`; Python
`str.split(sep)` semantics: no collapsing, the empty string yields `[""]`. -/
def splitOnChar (sep : Char) : List Char → List (List Char)
  | [] => [[]]
  | c :: rest =>
    let r := splitOnChar sep rest
    if c = sep then [] :: r
    else
      match r with
      | h :: t => (c :: h) :: t
      | [] => [[c]]

/-- Python `content.split('\n')`. -/
def pySplitLines (s : String) : List String :=
  (splitOnChar '\n' s.data).map String.mk

/-- Python `s.startswith(pre)`. -/
def pyStartsWith (s pre : String) : Bool :=
  pre.data.isPrefixOf s.data

/-- Python `s.lower()` (ASCII case mapping; the tag vocabulary's cased
characters are all ASCII). -/
def pyLower (s : String) : String :=
  String.mk (s.data.map Char.toLower)

/-- Substring occurrence on character lists (Python `needle in haystack`). -/
def containsSub : List Char → List Char → Bool
  | _, [] => true
  | [], _ :: _ => false
  | a :: t, b :: u => (b :: u).isPrefixOf (a :: t) || containsSub t (b :: u)

/-- Python `needle in haystack` for strings. -/
def pyContains (haystack needle : String) : Bool :=
  containsSub haystack.data needle.data

/-- Python `' '.join` / `'\n'.join`. -/
def pyJoin (sep : String) : List String → String
  | [] => ""
  | [l] => l
  | l :: ls => l ++ sep ++ pyJoin sep ls

/-- Python slice `s[:n]` (first `n` characters). -/
def pyTake (s : String) (n : Nat) : String :=
  String.mk (s.data.take n)

/-- Python slice `s[a:]`. -/
def pyDropStr (s : String) (a : Nat) : String :=
  String.mk (s.data.drop a)

/-- Python slice `s[a:b]`. -/
def pySlice (s : String) (a b : Nat) : String :=
  String.mk ((s.data.take b).drop a)

/-- First index `≥ i` at which `needle` occurs in the remaining list,
accumulating the absolute index. -/
def findSubAux (needle : List Char) : List Char → Nat → Option Nat
  | [], i => if needle = [] then some i else none
  | a :: t, i => if needle.isPrefixOf (a :: t) then some i else findSubAux needle t (i + 1)

/-- Python `s.find(sub, start)`: lowest character index `≥ start` where `sub`
occurs, `-1` when absent. -/
def pyFind (s sub : String) (start : Nat) : Int :=
  match findSubAux sub.data (s.data.drop start) start with
  | some i => Int.ofNat i
  | none => -1

/-- Python `s.rsplit(' ', 1)[0]`: everything before the last space, the whole
string when it has no space. -/
def beforeLastSpace (s : String) : String :=
  let r := s.data.reverse
  if r.any (fun c => c = ' ') then
    String.mk (((r.dropWhile (fun c => c != ' ')).drop 1).reverse)
  else s

/-- Python `str.title()` (ASCII): the first letter of every alphabetic run is
upper-cased, the rest lower-cased. -/
def pyTitleAux : Bool → List Char → List Char
  | _, [] => []
  | start, c :: t =>
    if c.isAlpha then (if start then c.toUpper else c.toLower) :: pyTitleAux false t
    else c :: pyTitleAux true t

/-- Python `s.title()`. -/
def pyTitle (s : String) : String :=
  String.mk (pyTitleAux true s.data)

/-- Python `pathlib.Path(name).stem`: the file name without its last
extension. -/
def pyStem (name : String) : String :=
  let r := name.data.reverse
  if r.any (fun c => c = '.') then
    let stemRev := (r.dropWhile (fun c => c != '.')).drop 1
    if stemRev = [] then name else String.mk stemRev.reverse
  else name

/-- Python `s.replace('_', ' ')`. -/
def pyReplaceUnderscore (s : String) : String :=
  String.mk (s.data.map (fun c => if c = '_' then ' ' else c))

/-! ## The chunker (`split_prd.py`, `split_markdown_by_sections`) -/

/-- The running size contribution of one buffered line:
`len(line) + 1` (line 40 and line 56 of `split_prd.py`). -/
def lineWeight (l : String) : Nat := l.length + 1

/-- The running total `sum(len(line) + 1 for line in current_section)` (line 56). -/
def sectionWeight (ls : List String) : Nat := (ls.map lineWeight).sum

/-- Character count of a persisted chunk, `len('\n'.join(chunk))`:
one less than its weight for a nonempty chunk. -/
def chunkCharSize (c : List String) : Nat := sectionWeight c - 1

/-- The blank-line test of line 47, `line.strip() == ''`. -/
def isBlankLine (l : String) : Bool := pyStrip l == ""

/-- Line 29, `line.strip().startswith('#')`. -/
def isHeaderLine (l : String) : Bool := pyStartsWith (pyStrip l) "#"

/-- Python `re.match(r'^#{1,3}\s', line)` (line 32): one to three leading
`'#'` characters followed by a whitespace character. -/
def isHeader13 (l : String) : Bool :=
  match l.data with
  | '#' :: '#' :: '#' :: '#' :: _ => false
  | '#' :: '#' :: '#' :: c :: _ => pySpace c
  | '#' :: '#' :: c :: _ => pySpace c
  | '#' :: c :: _ => pySpace c
  | _ => false

/-- The backward blank-line search of lines 45-49:
`for j in range(len(cs)-1, max(len(cs)-20, 0), -1): if cs[j].strip()=='' and j>0: sp=j; break`.
The argument is the index `j` currently examined; `lo` is the exclusive lower
bound of the Python `range`. -/
def findSplitFrom (cs : List String) (lo : Nat) : Nat → Nat
  | 0 => cs.length
  | j + 1 =>
    if lo < j + 1 then
      if isBlankLine (cs.getD (j + 1) "") && decide (0 < j + 1) then j + 1
      else findSplitFrom cs lo j
    else cs.length

/-- The `split_point` computed by lines 45-49 (`cs.length` when no blank line
is found, so that `cs[:sp]` is the whole buffer). -/
def findSplitPoint (cs : List String) : Nat :=
  findSplitFrom cs (cs.length - 20) (cs.length - 1)

/-- The loop state of `split_markdown_by_sections`: finished sections (each
kept as its list of lines; the code stores `'\n'.join` of it), the current
buffer and its running size. -/
structure ChunkState where
  sections : List (List String)
  current_section : List String
  current_size : Nat
deriving DecidableEq

/-- Lines 31-36: the header-triggered split.  The float comparison
`current_size > chunk_size * 0.7` is modelled exactly as
`10 * current_size > 7 * chunk_size`. -/
def headerStep (chunk_size : Nat) (st : ChunkState) (line : String) : ChunkState :=
  if isHeaderLine line && isHeader13 line && decide (10 * st.current_size > 7 * chunk_size) then
    if st.current_section ≠ [] then
      ⟨st.sections ++ [st.current_section], [], 0⟩
    else st
  else st

/-- Lines 38-40: append the current line and update the running size. -/
def appendStep (st : ChunkState) (line : String) : ChunkState :=
  ⟨st.sections, st.current_section ++ [line], st.current_size + lineWeight line⟩

/-- Lines 42-56: the size-triggered split. -/
def sizeStep (chunk_size : Nat) (st : ChunkState) : ChunkState :=
  if st.current_size > chunk_size then
    let sp := findSplitPoint st.current_section
    ⟨st.sections ++ [st.current_section.take sp],
      st.current_section.drop sp,
      sectionWeight (st.current_section.drop sp)⟩
  else st

/-- One iteration of the `while i < len(lines)` loop (lines 25-58). -/
def processLine (chunk_size : Nat) (st : ChunkState) (line : String) : ChunkState :=
  sizeStep chunk_size (appendStep (headerStep chunk_size st line) line)

/-- The final flush of lines 60-62: `if current_section: sections.append(...)`. -/
def flushState (st : ChunkState) : List (List String) :=
  if st.current_section ≠ [] then st.sections ++ [st.current_section] else st.sections

/-- The core of `split_markdown_by_sections` (lines 17-62): the
line-accumulation loop followed by the final flush of lines 60-62.  Each
section is returned as its list of lines. -/
def split_markdown_by_sections (lines : List String) (chunk_size : Nat) : List (List String) :=
  flushState (lines.foldl (processLine chunk_size) ⟨[], [], 0⟩)

/-- The chunker on a whole document: `lines = content.split('\n')` (line 22),
sections persisted as `'\n'.join(...)` (lines 34, 52, 62). -/
def splitDocument (content : String) (chunk_size : Nat) : List String :=
  (split_markdown_by_sections (pySplitLines content) chunk_size).map (pyJoin "\n")

/-! ## Persisted outputs of `split_markdown_by_sections` (lines 64-93) -/

/-- Python `f"{idx:03d}"`. -/
def pad3 (n : Nat) : String :=
  if n < 10 then "00" ++ toString n
  else if n < 100 then "0" ++ toString n
  else toString n

/-- The chunk file name `f"{base_name}_chunk_{idx:03d}.md"` (line 67);
`base_name = Path(file_path).stem` (line 65). -/
def chunkFileName (base : String) (idx : Nat) : String :=
  base ++ "_chunk_" ++ pad3 idx ++ ".md"

/-- The bytes written for one chunk file: the metadata preamble of
lines 70-74 followed by the section (line 75). -/
def chunkFileContent (file_path : String) (idx total : Nat) (sec : String) : String :=
  "---\n" ++ "source: " ++ file_path ++ "\n" ++
  "chunk: " ++ toString idx ++ "/" ++ toString total ++ "\n" ++
  "size: " ++ toString sec.length ++ " chars\n" ++
  "---\n\n" ++ sec

/-- One line of the chunks list in the index file (line 90). -/
def indexListLine (base : String) (idx : Nat) : String :=
  "- [" ++ chunkFileName base idx ++ "](./" ++ chunkFileName base idx ++ ")\n"

/-- The bytes written for the index file (lines 80-90). -/
def indexFileContent (base file_path : String) (chunk_size total : Nat) : String :=
  "# " ++ base ++ " Document Chunks Index\n\n" ++
  "Total chunks: " ++ toString total ++ "\n" ++
  "Original file: " ++ file_path ++ "\n" ++
  "Chunk size: ~" ++ toString chunk_size ++ " chars\n\n" ++
  "## Chunks List\n\n" ++
  String.join ((List.range total).map (fun k => indexListLine base (k + 1)))

/-- Every persisted output of one run of `split_markdown_by_sections`:
the list of (file name, file content) chunk files in order, plus the index
file.  The filesystem side effects themselves are outside the embedding; the
returned values are exactly the bytes the script writes. -/
def splitOutputs (content file_path : String) (chunk_size : Nat) :
    List (String × String) × (String × String) :=
  let base := pyStem file_path
  let sections := splitDocument content chunk_size
  let total := sections.length
  (sections.enum.map
      (fun p => (chunkFileName base (p.1 + 1), chunkFileContent file_path (p.1 + 1) total p.2)),
    (base ++ "_index.md", indexFileContent base file_path chunk_size total))

/-! ## The index builder (`create_embeddings_index.py`) -/

/-- The hardcoded tag vocabulary of `extract_tags` (lines 114-125), in
declaration order. -/
def keywords : List (String × List String) :=
  [("API", ["API", "REST", "GraphQL", "endpoint"]),
   ("Database", ["数据库", "database", "schema", "表结构"]),
   ("UI", ["界面", "UI", "UX", "用户体验", "frontend"]),
   ("Backend", ["后端", "backend", "server", "服务端"]),
   ("Auth", ["认证", "auth", "权限", "permission"]),
   ("Game", ["游戏", "game", "玩法", "gameplay"]),
   ("Guild", ["公会", "guild", "团队", "team"]),
   ("Player", ["玩家", "player", "用户", "user"]),
   ("Battle", ["战斗", "battle", "combat", "PvP"]),
   ("Economy", ["经济", "economy", "货币", "currency"])]

/-- Function `extract_tags` (lines 107-132): a tag is appended when any of its terms
occurs, case-insensitively, in the content; the result is `tags[:5]`. -/
def extract_tags (content : String) : List String :=
  let content_lower := pyLower content
  let tags := keywords.foldl
    (fun acc p =>
      if p.2.any (fun term => pyContains content_lower (pyLower term)) then acc ++ [p.1]
      else acc) []
  tags.take 5

/-- The accumulation loop of `extract_summary` (lines 139-145): stripped
non-empty, non-`'#'`, non-`'---'` lines are collected until the length of
their space-join exceeds `max_length`. -/
def summaryLoop (max_length : Nat) : List String → List String → List String
  | acc, [] => acc
  | acc, l :: rest =>
    let line := pyStrip l
    if line != "" && !(pyStartsWith line "#") && !(pyStartsWith line "---") then
      let acc2 := acc ++ [line]
      if (pyJoin " " acc2).length > max_length then acc2
      else summaryLoop max_length acc2 rest
    else summaryLoop max_length acc rest

/-- Function `extract_summary` (lines 134-151).  The Python default `max_length=200`
is passed explicitly by callers of this model. -/
def extract_summary (content : String) (max_length : Nat) : String :=
  let lines := summaryLoop max_length [] (pySplitLines content)
  let summary := pyTake (pyJoin " " lines) max_length
  let summary :=
    if summary.length = max_length then beforeLastSpace summary ++ "..." else summary
  if summary != "" then summary else "No summary available"

/-- The stripped, non-empty, non-header, non-separator lines of a line list,
in order: the lines eligible for the summary. -/
def eligibleOf (ls : List String) : List String :=
  (ls.map pyStrip).filter
    (fun l => l != "" && !(pyStartsWith l "#") && !(pyStartsWith l "---"))

/-- The eligible lines of a whole content. -/
def eligibleLines (content : String) : List String :=
  ((pySplitLines content).map pyStrip).filter
    (fun l => l != "" && !(pyStartsWith l "#") && !(pyStartsWith l "---"))

/-- The post-processing of `extract_summary` (lines 147-151): truncation to
`max_length`, the trim-plus-ellipsis step when the truncated summary has
length exactly `max_length`, and the sentinel for an empty summary.  The
argument `s1` is `' '.join(lines)[:max_length]`. -/
def summaryPost (s1 : String) (max_length : Nat) : String :=
  let s2 := if s1.length = max_length then beforeLastSpace s1 ++ "..." else s1
  if s2 != "" then s2 else "No summary available"

/-- One `key: value` line of the YAML preamble (lines 43-46):
`key, value = line.split(':', 1)`, both stripped. -/
def parseMetaLine (acc : List (String × String)) (l : String) : List (String × String) :=
  if l.data.contains ':' then
    let key := String.mk (l.data.takeWhile (fun c => c != ':'))
    let value := String.mk ((l.data.dropWhile (fun c => c != ':')).drop 1)
    acc ++ [(pyStrip key, pyStrip value)]
  else acc

/-- The YAML-preamble handling of lines 38-51, returning the parsed metadata
pairs and the `actual_content` used for the entry.  When the content starts
with `"---"` that is never closed, the Python code leaves the variable
`actual_content` at its value from the previous loop iteration (`prev`; a
`NameError` on the first file), which this model threads explicitly. -/
def parsePreamble (prev : Option String) (content : String) :
    List (String × String) × Option String :=
  if pyStartsWith content "---" then
    let meta_end := pyFind content "---" 3
    if meta_end > 0 then
      let meta_section := pyStrip (pySlice content 3 meta_end.toNat)
      let meta_info := (pySplitLines meta_section).foldl parseMetaLine []
      (meta_info, some (pyStrip (pyDropStr content (meta_end.toNat + 3))))
    else ([], prev)
  else ([], some content)

/-- The `title` extraction (lines 56-62): the first line among the first 10 lines
of the actual content whose stripped form starts with `'#'`, with `'#'`
stripped from both ends and then whitespace stripped; otherwise the default
title `file_path.stem.replace('_', ' ').title()`. -/
def titleFromContent (defaultTitle actual : String) : String :=
  match ((pySplitLines actual).take 10).find? (fun l => pyStartsWith (pyStrip l) "#") with
  | some l => pyStrip (String.mk (pyStripChars (fun c => c = '#') (pyStrip l).data))
  | none => defaultTitle

/-- One record of the `documents` array (lines 64-76).  The md5-based `id`
field (line 54) is a call into `hashlib`, outside the embedding, and is
omitted; no claim refers to it. -/
structure DocEntry where
  file : String
  chunk_number : Nat
  title : String
  size : Nat
  char_count : Nat
  line_count : Nat
  metadata : List (String × String)
  tags : List String
  summary : String
deriving DecidableEq

/-- The `doc_entry` built for one file (lines 56-76). -/
def buildDocEntry (idx : Nat) (name actual : String)
    (meta : List (String × String)) : DocEntry :=
  { file := name
    chunk_number := idx
    title := titleFromContent (pyTitle (pyReplaceUnderscore (pyStem name))) actual
    size := actual.length
    char_count := actual.length
    line_count := (pySplitLines actual).length
    metadata := meta
    tags := extract_tags actual
    summary := extract_summary actual 200 }

/-- The index record (lines 17-29): its static `metadata` block is constant
text and is not repeated here; `total_documents = len(md_files)` is fixed
before the loop runs. -/
structure IndexData where
  version : String
  source_directory : String
  total_documents : Nat
  documents : List DocEntry
deriving DecidableEq

/-- The `for idx, file_path in enumerate(md_files, 1)` loop (lines 32-79),
threading the `actual_content` variable; `.error` is the `NameError` raised
when the first file has an unclosed `"---"` preamble. -/
def indexLoop : Option String → Nat → List (String × String) → Except String (List DocEntry)
  | _, _, [] => .ok []
  | prev, idx, (name, content) :: rest =>
    match parsePreamble prev content with
    | (_, none) => .error "NameError: actual_content referenced before assignment"
    | (meta, some actual) =>
      match indexLoop (some actual) (idx + 1) rest with
      | .ok entries => .ok (buildDocEntry idx name actual meta :: entries)
      | .error e => .error e

/-- Function `create_embeddings_index` (lines 7-105) on the name-sorted list of
`(file name, file content)` pairs produced by the `glob` of line 14; the
filesystem enumeration itself is outside the embedding. -/
def create_embeddings_index (source_dir : String) (files : List (String × String)) :
    Except String IndexData :=
  match indexLoop none 1 files with
  | .ok entries =>
    .ok { version := "1.0"
          source_directory := source_dir
          total_documents := files.length
          documents := entries }
  | .error e => .error e

/-! ## Helper lemmas about the chunker loop -/

theorem headerStep_flatten (t : Nat) (st : ChunkState) (line : String) :
    (headerStep t st line).sections.flatten ++ (headerStep t st line).current_section
      = st.sections.flatten ++ st.current_section := by
  unfold headerStep
  split
  · split
    · simp
    · rfl
  · rfl

theorem sizeStep_flatten (t : Nat) (st : ChunkState) :
    (sizeStep t st).sections.flatten ++ (sizeStep t st).current_section
      = st.sections.flatten ++ st.current_section := by
  unfold sizeStep
  split
  · simp
  · rfl

theorem processLine_flatten (t : Nat) (st : ChunkState) (line : String) :
    (processLine t st line).sections.flatten ++ (processLine t st line).current_section
      = st.sections.flatten ++ st.current_section ++ [line] := by
  unfold processLine
  rw [sizeStep_flatten]
  show (headerStep t st line).sections.flatten
      ++ ((headerStep t st line).current_section ++ [line]) = _
  rw [← List.append_assoc, headerStep_flatten]

theorem foldl_flatten (t : Nat) :
    ∀ (ls : List String) (st : ChunkState),
      (ls.foldl (processLine t) st).sections.flatten
          ++ (ls.foldl (processLine t) st).current_section
        = st.sections.flatten ++ st.current_section ++ ls := by
  intro ls
  induction ls with
  | nil => intro st; simp
  | cons l ls ih =>
    intro st
    rw [List.foldl_cons, ih, processLine_flatten]
    simp

/-- C1: For every input document and every target size, concatenating the
line sequences of all chunks produced by `split_markdown_by_sections`, in
order, reproduces the document's lines (`content.split('\n')`) exactly: no
line is dropped, duplicated, or reordered. -/
theorem chunker_roundtrip :
    ∀ (content : String) (chunk_size : Nat),
      (split_markdown_by_sections (pySplitLines content) chunk_size).flatten
        = pySplitLines content := by
  intro content t
  unfold split_markdown_by_sections flushState
  have h := foldl_flatten t (pySplitLines content) ⟨[], [], 0⟩
  simp only [List.flatten_nil, List.nil_append] at h
  split
  · simpa using h
  · next hcs =>
    rw [not_not] at hcs
    rw [hcs, List.append_nil] at h
    exact h

/-! ## Helper lemmas: no chunk is empty -/

theorem findSplitFrom_pos (cs : List String) (lo : Nat) (h : cs ≠ []) :
    ∀ j, 1 ≤ findSplitFrom cs lo j := by
  intro j
  induction j with
  | zero => exact List.length_pos.mpr h
  | succ j ih =>
    unfold findSplitFrom
    split
    · split
      · exact Nat.succ_le_succ (Nat.zero_le j)
      · exact ih
    · exact List.length_pos.mpr h

theorem sizeStep_nonempty (t : Nat) (st : ChunkState)
    (hs : ∀ c ∈ st.sections, c ≠ []) (hcs : st.current_section ≠ []) :
    ∀ c ∈ (sizeStep t st).sections, c ≠ [] := by
  unfold sizeStep
  split
  · intro c hc
    simp only [List.mem_append, List.mem_singleton] at hc
    rcases hc with hc | hc
    · exact hs c hc
    · subst hc
      intro hnil
      rcases List.take_eq_nil_iff.mp hnil with h0 | h0
      · have := findSplitFrom_pos st.current_section (st.current_section.length - 20) hcs
          (st.current_section.length - 1)
        unfold findSplitPoint at h0
        omega
      · exact hcs h0
  · exact hs

theorem processLine_nonempty (t : Nat) (st : ChunkState) (line : String)
    (hs : ∀ c ∈ st.sections, c ≠ []) :
    ∀ c ∈ (processLine t st line).sections, c ≠ [] := by
  unfold processLine
  apply sizeStep_nonempty
  · show ∀ c ∈ (headerStep t st line).sections, c ≠ []
    unfold headerStep
    split
    · split
      · next hne =>
        intro c hc
        simp only [List.mem_append, List.mem_singleton] at hc
        rcases hc with hc | hc
        · exact hs c hc
        · subst hc; exact hne
      · exact hs
    · exact hs
  · show (headerStep t st line).current_section ++ [line] ≠ []
    simp

theorem foldl_nonempty (t : Nat) :
    ∀ (ls : List String) (st : ChunkState), (∀ c ∈ st.sections, c ≠ []) →
      ∀ c ∈ (ls.foldl (processLine t) st).sections, c ≠ [] := by
  intro ls
  induction ls with
  | nil => intro st h; exact h
  | cons l ls ih =>
    intro st h
    rw [List.foldl_cons]
    exact ih _ (processLine_nonempty t st l h)

/-- C4: A header line is never used as a split trigger when the preceding
buffer is empty (the `if current_section:` guard of line 33 makes
`headerStep` the identity there), and, for every input document and target
size, every chunk the chunker emits contains at least one line. -/
theorem chunks_nonempty :
    (∀ (chunk_size : Nat) (st : ChunkState) (line : String),
        st.current_section = [] → headerStep chunk_size st line = st)
    ∧ (∀ (content : String) (chunk_size : Nat) (c : List String),
        c ∈ split_markdown_by_sections (pySplitLines content) chunk_size → c ≠ []) := by
  constructor
  · intro t st line hcs
    unfold headerStep
    split
    · split
      · next hne => exact absurd hcs hne
      · rfl
    · rfl
  · intro content t c hc
    unfold split_markdown_by_sections flushState at hc
    have hall := foldl_nonempty t (pySplitLines content) ⟨[], [], 0⟩ (by intro c h; cases h)
    split at hc
    · next hne =>
      simp only [List.mem_append, List.mem_singleton] at hc
      rcases hc with hc | hc
      · exact hall c hc
      · subst hc; exact hne
    · exact hall c hc

/-- Witness for C4 at concrete inputs: the single chunk of the one-line
document `"a"` is nonempty, and a header line arriving on an empty buffer
leaves the state unchanged. -/
theorem chunks_nonempty_witness :
    headerStep 10 ⟨[], [], 0⟩ "# h" = ⟨[], [], 0⟩ ∧ (["a"] : List String) ≠ [] :=
  ⟨chunks_nonempty.1 10 ⟨[], [], 0⟩ "# h" rfl,
   chunks_nonempty.2 "a" 5 ["a"] (by decide)⟩

/-- C7: the chunking engine is a pure function of its inputs: two runs on
identical document, path and target size produce identical chunk sequences
and byte-identical output file contents (chunk files and index file). -/
theorem chunker_deterministic :
    ∀ (c₁ c₂ p₁ p₂ : String) (t₁ t₂ : Nat), c₁ = c₂ → p₁ = p₂ → t₁ = t₂ →
      splitOutputs c₁ p₁ t₁ = splitOutputs c₂ p₂ t₂
        ∧ splitDocument c₁ t₁ = splitDocument c₂ t₂ := by
  intro c₁ c₂ p₁ p₂ t₁ t₂ hc hp ht
  subst hc; subst hp; subst ht
  exact ⟨rfl, rfl⟩

/-- Witness for C7: two runs on the same concrete document agree. -/
theorem chunker_deterministic_witness :
    splitOutputs "a\nb" "doc.md" 4 = splitOutputs "a\nb" "doc.md" 4
      ∧ splitDocument "a\nb" 4 = splitDocument "a\nb" 4 :=
  chunker_deterministic "a\nb" "a\nb" "doc.md" "doc.md" 4 4 rfl rfl rfl

/-! ## Tag extraction -/

theorem foldl_append_filter {α β : Type} (q : α → Bool) (f : α → β) :
    ∀ (l : List α) (init : List β),
      l.foldl (fun acc p => if q p then acc ++ [f p] else acc) init
        = init ++ (l.filter q).map f := by
  intro l
  induction l with
  | nil => intro init; simp
  | cons a l ih =>
    intro init
    rw [List.foldl_cons]
    by_cases hq : q a
    · rw [if_pos hq, ih, List.filter_cons_of_pos hq]
      simp
    · rw [if_neg hq, ih, List.filter_cons_of_neg (by simpa using hq)]

theorem mem_take_five_head {β : Type} {q : String × β → Bool}
    (a : String × β) (l : List (String × β)) (h : q a = true) :
    a.1 ∈ (((a :: l).filter q).map Prod.fst).take 5 := by
  rw [List.filter_cons, if_pos h, List.map_cons]
  exact List.mem_cons_self _ _

/-- C9: a tag category enters the derived tag list exactly when one of its
vocabulary substrings occurs, case-insensitively, in the content, and the
list is the first 5 such categories in vocabulary-declaration order; in
particular any content containing `"API"` in any case carries the `"API"`
tag, and content matching no vocabulary substring yields an empty list. -/
theorem tags_spec :
    (∀ content : String,
        extract_tags content
          = ((keywords.filter
                (fun p => p.2.any (fun term => pyContains (pyLower content) (pyLower term)))).map
              Prod.fst).take 5)
    ∧ (∀ content : String,
        pyContains (pyLower content) "api" = true → "API" ∈ extract_tags content)
    ∧ (∀ content : String,
        (∀ p ∈ keywords, ∀ term ∈ p.2, pyContains (pyLower content) (pyLower term) = false) →
          extract_tags content = []) := by
  have hmain : ∀ content : String,
      extract_tags content
        = ((keywords.filter
              (fun p => p.2.any (fun term => pyContains (pyLower content) (pyLower term)))).map
            Prod.fst).take 5 := by
    intro content
    show (keywords.foldl
        (fun acc p =>
          if p.2.any (fun term => pyContains (pyLower content) (pyLower term)) then acc ++ [p.1]
          else acc) []).take 5 = _
    rw [foldl_append_filter
      (fun p : String × List String =>
        p.2.any (fun term => pyContains (pyLower content) (pyLower term)))
      (fun p : String × List String => p.1)]
    simp
  refine ⟨hmain, ?_, ?_⟩
  · intro content h
    rw [hmain]
    have hq : (["API", "REST", "GraphQL", "endpoint"].any
        (fun term => pyContains (pyLower content) (pyLower term))) = true := by
      simp only [List.any_cons]
      rw [show pyLower "API" = "api" from rfl, h]
      rfl
    exact mem_take_five_head ("API", ["API", "REST", "GraphQL", "endpoint"]) _ hq
  · intro content h
    rw [hmain]
    have : keywords.filter
        (fun p => p.2.any (fun term => pyContains (pyLower content) (pyLower term))) = [] := by
      rw [List.filter_eq_nil_iff]
      intro p hp
      simp only [Bool.not_eq_true, List.any_eq_false]
      intro term hterm
      simp [h p hp term hterm]
    rw [this]
    rfl

/-- Witness for C9: a content containing `"API"` gets the API tag, and a
content matching no vocabulary substring gets no tags. -/
theorem tags_spec_witness :
    "API" ∈ extract_tags "my API" ∧ extract_tags "zz" = [] :=
  ⟨tags_spec.2.1 "my API" (by decide), tags_spec.2.2 "zz" (by decide)⟩

/-! ## Index consistency -/

theorem indexLoop_spec :
    ∀ (files : List (String × String)) (prev : Option String) (idx : Nat)
      (entries : List DocEntry), indexLoop prev idx files = .ok entries →
        entries.length = files.length
          ∧ entries.map (fun d => d.chunk_number) = List.range' idx files.length := by
  intro files
  induction files with
  | nil =>
    intro prev idx entries h
    cases h
    exact ⟨rfl, rfl⟩
  | cons f rest ih =>
    intro prev idx entries h
    obtain ⟨name, content⟩ := f
    unfold indexLoop at h
    split at h
    · cases h
    · rename_i meta actual hpp
      split at h
      · rename_i tailEntries hrec
        cases h
        obtain ⟨hlen, hmap⟩ := ih (some actual) (idx + 1) tailEntries hrec
        refine ⟨by simpa using hlen, ?_⟩
        simp only [List.map_cons, List.length_cons, hmap, buildDocEntry]
        rw [List.range'_succ]
      · cases h

/-- C10: for every list of input chunk files, a successfully produced index
has `total_documents` equal to the number of records in `documents`, and the
`chunk_number` fields of those records are exactly `1, 2, ..., N` in
processing order. -/
theorem index_consistency :
    ∀ (source_dir : String) (files : List (String × String)) (d : IndexData),
      create_embeddings_index source_dir files = .ok d →
        d.total_documents = d.documents.length
          ∧ d.documents.map (fun e => e.chunk_number) = List.range' 1 files.length := by
  intro source_dir files d h
  unfold create_embeddings_index at h
  cases hloop : indexLoop none 1 files with
  | error e => rw [hloop] at h; cases h
  | ok entries =>
    rw [hloop] at h
    cases h
    obtain ⟨hlen, hmap⟩ := indexLoop_spec files none 1 entries hloop
    exact ⟨hlen.symm, hmap⟩

/-- Witness for C10 on one concrete input file. -/
theorem index_consistency_witness :
    ({ version := "1.0", source_directory := "d", total_documents := 1,
       documents := [{ file := "a.md", chunk_number := 1, title := "A",
                       size := 2, char_count := 2, line_count := 1,
                       metadata := [], tags := [], summary := "hi" }] } : IndexData).total_documents
        = ({ version := "1.0", source_directory := "d", total_documents := 1,
             documents := [{ file := "a.md", chunk_number := 1, title := "A",
                             size := 2, char_count := 2, line_count := 1,
                             metadata := [], tags := [], summary := "hi" }] } : IndexData).documents.length
      ∧ ({ version := "1.0", source_directory := "d", total_documents := 1,
           documents := [{ file := "a.md", chunk_number := 1, title := "A",
                           size := 2, char_count := 2, line_count := 1,
                           metadata := [], tags := [], summary := "hi" }] } : IndexData).documents.map
          (fun e => e.chunk_number) = List.range' 1 [("a.md", "hi")].length :=
  index_consistency "d" [("a.md", "hi")] _ rfl

/-! ## The size-triggered split (C2) -/

theorem findSplitFrom_spec (cs : List String) (lo : Nat) :
    ∀ j, j < cs.length →
      ((∀ k, lo < k → k ≤ j → isBlankLine (cs.getD k "") = false)
          ∧ findSplitFrom cs lo j = cs.length)
      ∨ (∃ i, lo < i ∧ i ≤ j ∧ isBlankLine (cs.getD i "") = true
          ∧ (∀ k, i < k → k ≤ j → isBlankLine (cs.getD k "") = false)
          ∧ findSplitFrom cs lo j = i) := by
  intro j
  induction j with
  | zero =>
    intro _
    left
    exact ⟨fun k hk1 hk2 => absurd (Nat.lt_of_lt_of_le hk1 hk2) (Nat.not_lt_zero lo), rfl⟩
  | succ j ih =>
    intro hj
    unfold findSplitFrom
    by_cases hlo : lo < j + 1
    · rw [if_pos hlo]
      by_cases hb : isBlankLine (cs.getD (j + 1) "") = true
      · rw [if_pos (by rw [hb]; simp)]
        right
        exact ⟨j + 1, hlo, Nat.le_refl _, hb,
          fun k hk1 hk2 => absurd (Nat.lt_of_lt_of_le hk1 hk2) (Nat.lt_irrefl _), rfl⟩
      · have hbf : isBlankLine (cs.getD (j + 1) "") = false := by
          revert hb; cases isBlankLine (cs.getD (j + 1) "") <;> simp
        rw [if_neg (by rw [hbf]; simp)]
        rcases ih (Nat.lt_of_succ_lt hj) with ⟨hno, hres⟩ | ⟨i, hi1, hi2, hi3, hi4, hi5⟩
        · left
          refine ⟨fun k hk1 hk2 => ?_, hres⟩
          rcases Nat.lt_or_ge k (j + 1) with hk | hk
          · exact hno k hk1 (Nat.lt_succ_iff.mp hk)
          · have : k = j + 1 := Nat.le_antisymm hk2 hk
            rw [this]; exact hbf
        · right
          refine ⟨i, hi1, Nat.le_succ_of_le hi2, hi3, fun k hk1 hk2 => ?_, hi5⟩
          rcases Nat.lt_or_ge k (j + 1) with hk | hk
          · exact hi4 k hk1 (Nat.lt_succ_iff.mp hk)
          · have : k = j + 1 := Nat.le_antisymm hk2 hk
            rw [this]; exact hbf
    · rw [if_neg hlo]
      left
      refine ⟨fun k hk1 hk2 => ?_, rfl⟩
      exact absurd (Nat.lt_of_lt_of_le hk1 hk2) hlo

/-- C2 (amended): when appending a line makes the buffer's running size
exceed `target_size`, the chunker searches backward from the current line
over the buffer indices `len-1` down to `max(len-20, 0) + 1` — at most the
last 19 lines, never index 0 — for the nearest blank line.  If none lies in
that window the finished chunk is the whole buffer, current line included,
and the next buffer starts empty; if the nearest blank line is at index `sp`,
the finished chunk consists of the lines before index `sp` and the remainder
— beginning with that blank line — starts the next buffer (the blank line
belongs to the second chunk, not the first). -/
theorem size_split_characterization :
    ∀ (chunk_size : Nat) (st : ChunkState),
      st.current_size > chunk_size → st.current_section ≠ [] →
      sizeStep chunk_size st
          = ⟨st.sections ++ [st.current_section.take (findSplitPoint st.current_section)],
              st.current_section.drop (findSplitPoint st.current_section),
              sectionWeight
                (st.current_section.drop (findSplitPoint st.current_section))⟩
        ∧ ((findSplitPoint st.current_section = st.current_section.length
              ∧ ∀ k, st.current_section.length - 20 < k → k < st.current_section.length →
                  isBlankLine (st.current_section.getD k "") = false)
           ∨ (st.current_section.length - 20 < findSplitPoint st.current_section
              ∧ findSplitPoint st.current_section < st.current_section.length
              ∧ isBlankLine (st.current_section.getD (findSplitPoint st.current_section) "")
                  = true
              ∧ ∀ k, findSplitPoint st.current_section < k →
                  k < st.current_section.length →
                    isBlankLine (st.current_section.getD k "") = false)) := by
  intro t st hsz hcs
  constructor
  · unfold sizeStep
    rw [if_pos hsz]
  · have hlen : 0 < st.current_section.length := List.length_pos.mpr hcs
    have hspec := findSplitFrom_spec st.current_section (st.current_section.length - 20)
      (st.current_section.length - 1) (by omega)
    unfold findSplitPoint
    rcases hspec with ⟨hno, hres⟩ | ⟨i, hi1, hi2, hi3, hi4, hi5⟩
    · left
      exact ⟨hres, fun k hk1 hk2 => hno k hk1 (by omega)⟩
    · right
      rw [hi5]
      exact ⟨hi1, by omega, hi3, fun k hk1 hk2 => hi4 k hk1 (by omega)⟩

/-- Witness for C2's amended theorem at a concrete overflowing buffer:
the blank line starts the remainder buffer. -/
theorem size_split_characterization_witness :
    sizeStep 10 ⟨[], ["aaaa", "", "bbbbbbbb"], 15⟩
      = ⟨[["aaaa"]], ["", "bbbbbbbb"], sectionWeight ["", "bbbbbbbb"]⟩ := by
  have h := (size_split_characterization 10 ⟨[], ["aaaa", "", "bbbbbbbb"], 15⟩
    (by decide) (by decide)).1
  exact h.trans (by decide)

set_option maxRecDepth 8000 in
/-- C2 counterexample: on the document `["aaaa", "", "bbbbbbbb"]` with
`target_size = 10`, the size-triggered split snaps to the blank line at
index 1 but puts the blank line at the *start of the second chunk*
(`cs = cs[split_point:]`, line 55 of `split_prd.py`), not at the end of the
first chunk as the claim states; and on the 21-line document below, whose
only blank line sits exactly 20 positions before the overflowing line
(index 1, window bound `max(21-20, 0) = 1` is exclusive), no blank line is
found at all and the split is hard, although the blank line lies within
"the last 20 buffer lines" of the claim. -/
theorem blank_line_ownership_cx :
    (split_markdown_by_sections ["aaaa", "", "bbbbbbbb"] 10 = [["aaaa"], ["", "bbbbbbbb"]]
      ∧ "" ∉ (["aaaa"] : List String))
    ∧ split_markdown_by_sections
        ["a", "", "b", "b", "b", "b", "b", "b", "b", "b", "b", "b", "b", "b", "b", "b",
         "b", "b", "b", "b", "cccccccc"] 45
      = [["a", "", "b", "b", "b", "b", "b", "b", "b", "b", "b", "b", "b", "b", "b", "b",
          "b", "b", "b", "b", "cccccccc"]] := by decide

/-! ## The header-triggered split (C3) -/

/-- C3 (amended): when the current line matches the level-1-to-3 header
pattern and the buffer holds *strictly more* than 70% of `target_size`
characters (the exact reading of the float comparison
`current_size > chunk_size * 0.7`; at exactly 70% no split happens, see the
counterexample) and the buffer is nonempty, the buffer is closed as a
finished chunk before the header line is appended, and the header line
becomes the first line of the new buffer — or, when the header line alone
already overflows `target_size`, immediately forms its own single-line
chunk.  Either way such a header line is the first line of its chunk. -/
theorem header_split_step :
    ∀ (chunk_size : Nat) (st : ChunkState) (line : String),
      (isHeaderLine line && isHeader13 line) = true →
      10 * st.current_size > 7 * chunk_size →
      st.current_section ≠ [] →
      processLine chunk_size st line
        = if lineWeight line > chunk_size
            then ⟨st.sections ++ [st.current_section, [line]], [], 0⟩
            else ⟨st.sections ++ [st.current_section], [line], lineWeight line⟩ := by
  intro t st line hhdr hsz hcs
  have hcond : (isHeaderLine line && isHeader13 line
      && decide (10 * st.current_size > 7 * t)) = true := by
    rw [hhdr, decide_eq_true hsz]
    rfl
  unfold processLine headerStep
  rw [if_pos hcond, if_pos hcs]
  unfold appendStep
  simp only []
  unfold sizeStep
  simp only []
  by_cases hlw : 0 + lineWeight line > t
  · rw [if_pos hlw, if_pos (by omega : lineWeight line > t)]
    have hfsp : findSplitPoint ([] ++ [line]) = 1 := rfl
    rw [hfsp]
    simp [sectionWeight]
  · rw [if_neg hlw, if_neg (by omega : ¬ lineWeight line > t)]
    simp

/-- Witness for C3's amended theorem: a buffer strictly above the 70%
threshold is flushed and the arriving header starts the new buffer. -/
theorem header_split_step_witness :
    processLine 10 ⟨[], ["aaaaaaa"], 8⟩ "# h" = ⟨[["aaaaaaa"]], ["# h"], lineWeight "# h"⟩ := by
  have h := header_split_step 10 ⟨[], ["aaaaaaa"], 8⟩ "# h" (by decide) (by decide) (by decide)
  exact h.trans (by decide)

/-- C3 counterexample: on the document `["aaaaaa", "# h"]` with
`target_size = 10`, the buffer holds exactly 70% of the target
(`sectionWeight ["aaaaaa"] = 7 = 0.7 × 10`) when the level-1 header line
`"# h"` arrives, yet no header-triggered split happens — the comparison at
line 32 of `split_prd.py` is strict — and the header line ends up mid-chunk,
as the non-first line of the single produced chunk, contradicting the
claim's "at least 70%". -/
theorem header_threshold_cx :
    split_markdown_by_sections ["aaaaaa", "# h"] 10 = [["aaaaaa", "# h"]]
      ∧ 10 * sectionWeight ["aaaaaa"] = 7 * 10
      ∧ isHeaderLine "# h" = true ∧ isHeader13 "# h" = true := by decide

/-! ## Degenerate documents (C5) -/

theorem sectionWeight_append (a b : List String) :
    sectionWeight (a ++ b) = sectionWeight a + sectionWeight b := by
  simp [sectionWeight]

theorem splitOnChar_ne_nil (sep : Char) : ∀ l : List Char, splitOnChar sep l ≠ [] := by
  intro l
  induction l with
  | nil => simp [splitOnChar]
  | cons c rest ih =>
    unfold splitOnChar
    by_cases hc : c = sep
    · simp [hc]
    · simp only [if_neg hc]
      cases splitOnChar sep rest with
      | nil => simp
      | cons h t => simp

theorem pySplitLines_ne_nil (s : String) : pySplitLines s ≠ [] := by
  unfold pySplitLines
  intro h
  exact splitOnChar_ne_nil '\n' s.data (List.map_eq_nil_iff.mp h)

theorem no_split_foldl (t : Nat) (all : List String)
    (hall : 10 * sectionWeight all ≤ 7 * t) :
    ∀ (rest done : List String), done ++ rest = all →
      rest.foldl (processLine t) ⟨[], done, sectionWeight done⟩
        = ⟨[], all, sectionWeight all⟩ := by
  intro rest
  induction rest with
  | nil =>
    intro done hdone
    rw [List.append_nil] at hdone
    rw [hdone, List.foldl_nil]
  | cons l rest ih =>
    intro done hdone
    have hwd : sectionWeight done + (sectionWeight [l] + sectionWeight rest)
        = sectionWeight all := by
      rw [← hdone, sectionWeight_append, show (l :: rest) = [l] ++ rest from rfl,
        sectionWeight_append]
    have hl1 : 1 ≤ sectionWeight [l] := by
      simp [sectionWeight, lineWeight]
    have hstep : processLine t ⟨[], done, sectionWeight done⟩ l
        = ⟨[], done ++ [l], sectionWeight (done ++ [l])⟩ := by
      unfold processLine headerStep
      rw [if_neg (by
        have : decide (10 * sectionWeight done > 7 * t) = false := by
          apply decide_eq_false
          omega
        rw [this, Bool.and_false]
        simp)]
      unfold appendStep sizeStep
      simp only []
      rw [if_neg (by
        show ¬ sectionWeight done + lineWeight l > t
        have : sectionWeight [l] = lineWeight l := by simp [sectionWeight]
        omega)]
      have : sectionWeight done + lineWeight l = sectionWeight (done ++ [l]) := by
        rw [sectionWeight_append]
        simp [sectionWeight]
      rw [this]
    rw [List.foldl_cons, hstep]
    exact ih (done ++ [l]) (by rw [List.append_assoc]; exact hdone)

/-- C5 (amended): the chunker never fails and, for an empty document, yields
one chunk equal to the whole document for every positive target size; more
generally any document — header-less or otherwise — whose total weighted
size (`Σ len(line)+1`) is at most 70% of `target_size` comes back as a
single chunk equal to the whole document.  A header-less document *larger*
than the target is still split by the size rule (see the counterexample). -/
theorem degenerate_single_chunk :
    (∀ chunk_size : Nat, 1 ≤ chunk_size →
        split_markdown_by_sections (pySplitLines "") chunk_size = [[""]])
    ∧ (∀ (content : String) (chunk_size : Nat),
        10 * sectionWeight (pySplitLines content) ≤ 7 * chunk_size →
          split_markdown_by_sections (pySplitLines content) chunk_size
            = [pySplitLines content]) := by
  constructor
  · intro t ht
    show flushState (List.foldl (processLine t) ⟨[], [], 0⟩ [""]) = [[""]]
    rw [List.foldl_cons, List.foldl_nil]
    have hstep : processLine t ⟨[], [], 0⟩ "" = ⟨[], [""], 1⟩ := by
      unfold processLine headerStep
      rw [if_neg (by rw [show isHeaderLine "" = false from rfl]; simp)]
      unfold appendStep sizeStep
      simp only []
      rw [if_neg (by show ¬ 0 + lineWeight "" > t; rw [show lineWeight "" = 1 from rfl]; omega)]
      rfl
    rw [hstep]
    rfl
  · intro content t hall
    unfold split_markdown_by_sections
    have h0 : sectionWeight ([] : List String) = 0 := rfl
    have := no_split_foldl t (pySplitLines content) hall (pySplitLines content) [] rfl
    rw [show (⟨[], [], 0⟩ : ChunkState) = ⟨[], [], sectionWeight []⟩ from rfl, this]
    unfold flushState
    rw [if_pos (by simpa using pySplitLines_ne_nil content)]
    rfl

/-- Witness for C5's amended theorem: the empty document and a small
header-less document each produce a single chunk equal to the document. -/
theorem degenerate_single_chunk_witness :
    split_markdown_by_sections (pySplitLines "") 1 = [[""]]
      ∧ split_markdown_by_sections (pySplitLines "zz") 10 = [pySplitLines "zz"] :=
  ⟨degenerate_single_chunk.1 1 (by decide),
   degenerate_single_chunk.2 "zz" 10 (by decide)⟩

/-- C5 counterexample: the header-less two-line document
`["aaaa", "bbbb"]` with `target_size = 3` is split into two chunks by the
size rule, not the single whole-document chunk the claim asserts for
header-less documents. -/
theorem headerless_split_cx :
    split_markdown_by_sections ["aaaa", "bbbb"] 3 = [["aaaa"], ["bbbb"]]
      ∧ (split_markdown_by_sections ["aaaa", "bbbb"] 3).length ≠ 1
      ∧ ∀ l ∈ (["aaaa", "bbbb"] : List String), isHeaderLine l = false := by decide

/-! ## The soft size bound (C6) -/

theorem findSplitPoint_no_blank (cs : List String) (hne : cs ≠ [])
    (h : ∀ l ∈ cs, isBlankLine l = false) : findSplitPoint cs = cs.length := by
  unfold findSplitPoint
  rcases findSplitFrom_spec cs (cs.length - 20) (cs.length - 1)
      (by have := List.length_pos.mpr hne; omega) with ⟨_, hres⟩ | ⟨i, _, hi2, hi3, _, _⟩
  · exact hres
  · exfalso
    have hilt : i < cs.length := by have := List.length_pos.mpr hne; omega
    rw [List.getD_eq_getElem cs "" hilt] at hi3
    rw [h _ (List.getElem_mem hilt)] at hi3
    exact Bool.false_ne_true hi3

theorem emit_bounds (t : Nat) (cs : List String)
    (hm : ∃ l ∈ cs, 10 * lineWeight l ≤ 3 * t)
    (hlow : 7 * t < 10 * sectionWeight cs)
    (hhigh : 10 * sectionWeight cs ≤ 13 * t) :
    3 * t ≤ 10 * chunkCharSize cs ∧ 10 * chunkCharSize cs ≤ 13 * t := by
  obtain ⟨l, hl, hlw⟩ := hm
  have h1 : 1 ≤ lineWeight l := Nat.succ_le_succ (Nat.zero_le _)
  have hmem : lineWeight l ≤ sectionWeight cs :=
    List.single_le_sum (fun x _ => Nat.zero_le x) _ (List.mem_map_of_mem lineWeight hl)
  unfold chunkCharSize
  omega

theorem processLine_size_inv (t : Nat) (st : ChunkState) (line : String)
    (hline : isBlankLine line = false ∧ 10 * lineWeight line ≤ 3 * t)
    (h1 : st.current_size = sectionWeight st.current_section)
    (h2 : st.current_size ≤ t)
    (h3 : ∀ l ∈ st.current_section, isBlankLine l = false ∧ 10 * lineWeight l ≤ 3 * t)
    (h4 : ∀ c ∈ st.sections, 3 * t ≤ 10 * chunkCharSize c ∧ 10 * chunkCharSize c ≤ 13 * t) :
    (processLine t st line).current_size = sectionWeight (processLine t st line).current_section
    ∧ (processLine t st line).current_size ≤ t
    ∧ (∀ l ∈ (processLine t st line).current_section,
        isBlankLine l = false ∧ 10 * lineWeight l ≤ 3 * t)
    ∧ (∀ c ∈ (processLine t st line).sections,
        3 * t ≤ 10 * chunkCharSize c ∧ 10 * chunkCharSize c ≤ 13 * t) := by
  have hst1 : (headerStep t st line).current_size
        = sectionWeight (headerStep t st line).current_section
      ∧ (headerStep t st line).current_size ≤ t
      ∧ (∀ l ∈ (headerStep t st line).current_section,
          isBlankLine l = false ∧ 10 * lineWeight l ≤ 3 * t)
      ∧ (∀ c ∈ (headerStep t st line).sections,
          3 * t ≤ 10 * chunkCharSize c ∧ 10 * chunkCharSize c ≤ 13 * t) := by
    unfold headerStep
    split
    · next hcond =>
      split
      · next hne =>
        refine ⟨rfl, Nat.zero_le t, by simp, ?_⟩
        intro c hc
        rcases List.mem_append.mp hc with hc | hc
        · exact h4 c hc
        · rw [List.mem_singleton] at hc
          subst hc
          have hsz : 10 * st.current_size > 7 * t := by
            have hand := (Bool.and_eq_true _ _).mp hcond
            exact of_decide_eq_true hand.2
          apply emit_bounds t st.current_section
          · obtain ⟨l, hl⟩ := List.exists_mem_of_ne_nil _ hne
            exact ⟨l, hl, (h3 l hl).2⟩
          · rw [← h1]; exact hsz
          · rw [← h1]; omega
      · exact ⟨h1, h2, h3, h4⟩
    · exact ⟨h1, h2, h3, h4⟩
  obtain ⟨g1, g2, g3, g4⟩ := hst1
  have hw2 : (headerStep t st line).current_size + lineWeight line
      = sectionWeight ((headerStep t st line).current_section ++ [line]) := by
    rw [sectionWeight_append, g1]
    simp [sectionWeight]
  have hall2 : ∀ l ∈ (headerStep t st line).current_section ++ [line],
      isBlankLine l = false ∧ 10 * lineWeight l ≤ 3 * t := by
    intro l hl
    rcases List.mem_append.mp hl with hl | hl
    · exact g3 l hl
    · rw [List.mem_singleton] at hl; subst hl; exact hline
  unfold processLine appendStep sizeStep
  dsimp only
  by_cases hov : (headerStep t st line).current_size + lineWeight line > t
  · rw [if_pos hov]
    have hfull : findSplitPoint ((headerStep t st line).current_section ++ [line])
        = ((headerStep t st line).current_section ++ [line]).length :=
      findSplitPoint_no_blank _ (by simp) (fun l hl => (hall2 l hl).1)
    rw [hfull, List.take_length, List.drop_length]
    refine ⟨rfl, Nat.zero_le t, by simp, ?_⟩
    intro c hc
    rcases List.mem_append.mp hc with hc | hc
    · exact g4 c hc
    · rw [List.mem_singleton] at hc
      subst hc
      apply emit_bounds t
      · exact ⟨line, List.mem_append_right _ (List.mem_singleton_self line), hline.2⟩
      · rw [← hw2]; omega
      · rw [← hw2]; omega
  · rw [if_neg hov]
    dsimp only
    exact ⟨hw2, by omega, hall2, g4⟩

theorem foldl_size_inv (t : Nat) :
    ∀ ls : List String,
      (∀ l ∈ ls, isBlankLine l = false ∧ 10 * lineWeight l ≤ 3 * t) →
      ∀ st : ChunkState,
        st.current_size = sectionWeight st.current_section →
        st.current_size ≤ t →
        (∀ l ∈ st.current_section, isBlankLine l = false ∧ 10 * lineWeight l ≤ 3 * t) →
        (∀ c ∈ st.sections, 3 * t ≤ 10 * chunkCharSize c ∧ 10 * chunkCharSize c ≤ 13 * t) →
        (∀ c ∈ (ls.foldl (processLine t) st).sections,
          3 * t ≤ 10 * chunkCharSize c ∧ 10 * chunkCharSize c ≤ 13 * t) := by
  intro ls
  induction ls with
  | nil => intro _ st _ _ _ h4; exact h4
  | cons l ls ih =>
    intro hls st h1 h2 h3 h4
    rw [List.foldl_cons]
    obtain ⟨g1, g2, g3, g4⟩ :=
      processLine_size_inv t st l (hls l (List.mem_cons_self l ls)) h1 h2 h3 h4
    exact ih (fun x hx => hls x (List.mem_cons_of_mem l hx)) _ g1 g2 g3 g4

/-- C6 (amended): the `[0.3×, 1.3×]` size bound for non-last chunks does not
hold unconditionally (see the counterexample); it does hold for every
document that contains no blank lines and whose every line satisfies
`len(line) + 1 ≤ 0.3 × target_size`: then every chunk except possibly the
last has character size (length of its `'\n'`-joined content) within
`[0.3 × target_size, 1.3 × target_size]`. -/
theorem size_bound_soft :
    ∀ (content : String) (chunk_size : Nat),
      (∀ l ∈ pySplitLines content,
          isBlankLine l = false ∧ 10 * lineWeight l ≤ 3 * chunk_size) →
      ∀ c ∈ (split_markdown_by_sections (pySplitLines content) chunk_size).dropLast,
        3 * chunk_size ≤ 10 * chunkCharSize c
          ∧ 10 * chunkCharSize c ≤ 13 * chunk_size := by
  intro content t hdoc c hc
  have hfin := foldl_size_inv t (pySplitLines content) hdoc ⟨[], [], 0⟩ rfl
    (Nat.zero_le t) (by intro l hl; cases hl) (by intro x hx; cases hx)
  unfold split_markdown_by_sections flushState at hc
  split at hc
  · rw [List.dropLast_concat] at hc
    exact hfin c hc
  · exact hfin c (List.dropLast_subset _ hc)

/-- Witness for C6's amended theorem: a blank-free document of short lines,
target 10; the first of the two chunks weighs 12, character size 11,
within `[3, 13]`. -/
theorem size_bound_soft_witness :
    3 * 10 ≤ 10 * chunkCharSize ["aa", "aa", "aa", "aa"]
      ∧ 10 * chunkCharSize ["aa", "aa", "aa", "aa"] ≤ 13 * 10 :=
  size_bound_soft "aa\naa\naa\naa\naa" 10 (by decide) ["aa", "aa", "aa", "aa"] (by decide)

/-- C6 counterexample: on the document `["a", "", "X...X(30 chars)"]` with
`target_size = 10`, the blank-line snapping makes the *first*, non-last
chunk the single line `"a"` of character size 1, far below
`0.3 × target_size = 3`: the soft size bound is violated by the code. -/
theorem size_bound_cx :
    (split_markdown_by_sections
        ["a", "", "XXXXXXXXXXXXXXXXXXXXXXXXXXXXXX"] 10).dropLast = [["a"]]
      ∧ 10 * chunkCharSize ["a"] < 3 * 10 := by decide

/-! ## Summary derivation (C8) -/

theorem pyJoin_cons_ne (a : String) (l : List String) (h : l ≠ []) :
    pyJoin " " (a :: l) = a ++ " " ++ pyJoin " " l := by
  cases l with
  | nil => exact absurd rfl h
  | cons b t => rfl

theorem pyJoin_append :
    ∀ (A : List String) (a : String) (B : List String), B ≠ [] →
      pyJoin " " ((a :: A) ++ B) = pyJoin " " (a :: A) ++ " " ++ pyJoin " " B := by
  intro A
  induction A with
  | nil =>
    intro a B hB
    show pyJoin " " (a :: B) = pyJoin " " [a] ++ " " ++ pyJoin " " B
    rw [pyJoin_cons_ne a B hB]
    rfl
  | cons b A' ih =>
    intro a B hB
    show pyJoin " " (a :: ((b :: A') ++ B)) = _
    rw [pyJoin_cons_ne a _ (by simp), ih b B hB, pyJoin_cons_ne a (b :: A') (by simp)]
    simp [String.append_assoc]

theorem pyJoin_length_le (A B : List String) :
    (pyJoin " " A).length ≤ (pyJoin " " (A ++ B)).length := by
  cases A with
  | nil => exact Nat.zero_le _
  | cons a A' =>
    cases B with
    | nil => rw [List.append_nil]
    | cons b B' =>
      rw [pyJoin_append A' a (b :: B') (by simp), String.length_append, String.length_append]
      omega

theorem pyTake_append_of_le (s t : String) (n : Nat) (h : n ≤ s.length) :
    pyTake (s ++ t) n = pyTake s n := by
  unfold pyTake
  rw [String.data_append, List.take_append_of_le_length h]

theorem pyTake_of_length_le (s : String) (n : Nat) (h : s.length ≤ n) : pyTake s n = s := by
  unfold pyTake
  rw [List.take_of_length_le h]

theorem pyTake_length (s : String) (n : Nat) : (pyTake s n).length = min n s.length := by
  show (s.data.take n).length = _
  rw [List.length_take]
  rfl

theorem string_ne_empty_of_length (s : String) (h : 0 < s.length) : s ≠ "" := by
  intro he
  rw [he] at h
  exact absurd h (by decide)

theorem append_dots_ne (s : String) : s ++ "..." ≠ "" := by
  apply string_ne_empty_of_length
  rw [String.length_append]
  have h3 : ("..." : String).length = 3 := rfl
  omega

theorem summaryLoop_cons (m : Nat) (acc : List String) (l : String) (rest : List String) :
    summaryLoop m acc (l :: rest)
      = if (pyStrip l != "" && !(pyStartsWith (pyStrip l) "#")
            && !(pyStartsWith (pyStrip l) "---")) = true
        then (if (pyJoin " " (acc ++ [pyStrip l])).length > m then acc ++ [pyStrip l]
              else summaryLoop m (acc ++ [pyStrip l]) rest)
        else summaryLoop m acc rest := rfl

theorem eligibleOf_nil : eligibleOf [] = [] := rfl

theorem eligibleOf_cons (l : String) (rest : List String) :
    eligibleOf (l :: rest)
      = if (pyStrip l != "" && !(pyStartsWith (pyStrip l) "#")
            && !(pyStartsWith (pyStrip l) "---")) = true
        then pyStrip l :: eligibleOf rest
        else eligibleOf rest := by
  unfold eligibleOf
  rw [List.map_cons, List.filter_cons]

theorem summaryLoop_agrees (m : Nat) :
    ∀ (rest acc : List String), (pyJoin " " acc).length ≤ m →
      ((pyJoin " " (acc ++ eligibleOf rest)).length ≤ m →
          summaryLoop m acc rest = acc ++ eligibleOf rest)
        ∧ (m < (pyJoin " " (acc ++ eligibleOf rest)).length →
            m < (pyJoin " " (summaryLoop m acc rest)).length
              ∧ pyTake (pyJoin " " (summaryLoop m acc rest)) m
                  = pyTake (pyJoin " " (acc ++ eligibleOf rest)) m) := by
  intro rest
  induction rest with
  | nil =>
    intro acc hacc
    refine ⟨fun _ => ?_, fun hgt => ?_⟩
    · show summaryLoop m acc [] = acc ++ eligibleOf []
      rw [eligibleOf_nil, List.append_nil]
      rfl
    · exfalso
      rw [eligibleOf_nil, List.append_nil] at hgt
      omega
  | cons l rest ih =>
    intro acc hacc
    rw [summaryLoop_cons, eligibleOf_cons]
    by_cases hb : (pyStrip l != "" && !(pyStartsWith (pyStrip l) "#")
        && !(pyStartsWith (pyStrip l) "---")) = true
    · rw [if_pos hb, if_pos hb]
      have hcons : acc ++ pyStrip l :: eligibleOf rest
          = (acc ++ [pyStrip l]) ++ eligibleOf rest := by simp
      rw [hcons]
      by_cases hbreak : (pyJoin " " (acc ++ [pyStrip l])).length > m
      · rw [if_pos hbreak]
        have hmono := pyJoin_length_le (acc ++ [pyStrip l]) (eligibleOf rest)
        refine ⟨fun hle => ?_, fun _ => ⟨hbreak, ?_⟩⟩
        · omega
        · cases hE : eligibleOf rest with
          | nil => rw [List.append_nil]
          | cons e E' =>
            obtain ⟨a0, A0, hA0⟩ :=
              List.exists_cons_of_ne_nil (by simp : acc ++ [pyStrip l] ≠ [])
            rw [hA0] at hbreak ⊢
            rw [pyJoin_append A0 a0 (e :: E') (by simp)]
            have h1 : m ≤ (pyJoin " " (a0 :: A0)).length := Nat.le_of_lt hbreak
            rw [pyTake_append_of_le _ _ m (by rw [String.length_append]; omega)]
            rw [pyTake_append_of_le _ _ m h1]
      · rw [if_neg hbreak]
        exact ih (acc ++ [pyStrip l]) (Nat.le_of_not_lt hbreak)
    · rw [if_neg hb, if_neg hb]
      exact ih acc hacc

theorem extract_summary_eq (content : String) (m : Nat) :
    extract_summary content m
      = summaryPost (pyTake (pyJoin " " (summaryLoop m [] (pySplitLines content))) m) m := rfl

theorem summaryPost_unfold (s1 : String) (m : Nat) :
    summaryPost s1 m
      = if (if s1.length = m then beforeLastSpace s1 ++ "..." else s1) != ""
        then (if s1.length = m then beforeLastSpace s1 ++ "..." else s1)
        else "No summary available" := rfl

/-- C8 (amended): the summary concatenates the stripped, non-empty,
non-`'#'`-, non-`'---'`-prefixed lines with single spaces; when the joined
text reaches 200 characters or more, it is truncated to its first 200
characters and then — *unconditionally*, whether or not the cut falls on a
word boundary — everything after the last space of the truncated text is
removed (nothing, when it contains no space) and the ellipsis marker
`"..."` is appended; a joined text shorter than 200 characters is returned
as is; with no eligible lines the summary is `"No summary available"`. -/
theorem summary_closed_form :
    ∀ content : String,
      extract_summary content 200
        = if pyJoin " " (eligibleLines content) = "" then "No summary available"
          else if 200 ≤ (pyJoin " " (eligibleLines content)).length
            then beforeLastSpace (pyTake (pyJoin " " (eligibleLines content)) 200) ++ "..."
            else pyJoin " " (eligibleLines content) := by
  intro content
  rw [extract_summary_eq content 200,
    show eligibleLines content = eligibleOf (pySplitLines content) from rfl]
  have hspec := summaryLoop_agrees 200 (pySplitLines content) [] (by decide)
  rw [List.nil_append] at hspec
  rcases Nat.lt_or_ge 200 ((pyJoin " " (eligibleOf (pySplitLines content))).length)
      with hgt | hle
  · obtain ⟨hlen, htake⟩ := hspec.2 hgt
    have hs1len : (pyTake (pyJoin " " (summaryLoop 200 [] (pySplitLines content))) 200).length
        = 200 := by
      rw [pyTake_length]
      omega
    rw [summaryPost_unfold, if_pos hs1len, htake]
    rw [if_pos (bne_iff_ne.mpr (append_dots_ne _))]
    rw [if_neg (string_ne_empty_of_length _ (by omega)), if_pos (by omega : 200 ≤ _)]
  · have hloop := hspec.1 hle
    rw [hloop, pyTake_of_length_le _ _ hle]
    by_cases h200 : (pyJoin " " (eligibleOf (pySplitLines content))).length = 200
    · rw [summaryPost_unfold, if_pos h200]
      rw [if_pos (bne_iff_ne.mpr (append_dots_ne _))]
      rw [if_neg (string_ne_empty_of_length _ (by omega)), if_pos (by omega : 200 ≤ _)]
    · rw [summaryPost_unfold, if_neg h200]
      by_cases hj : pyJoin " " (eligibleOf (pySplitLines content)) = ""
      · rw [if_neg (by rw [hj]; decide), if_pos hj]
      · rw [if_pos (bne_iff_ne.mpr hj), if_neg hj, if_neg (by omega : ¬ 200 ≤ _)]

set_option maxRecDepth 4000 in
/-- C8 counterexample: a single eligible line of exactly 200 non-space
characters.  The accumulated length never *exceeds* 200, so by the claim no
truncation happens and the summary should be the 200 characters unchanged;
the code instead sees `len(summary) == 200`, finds no space to trim back to,
and appends the ellipsis to the full 200 characters, returning 203
characters. -/
theorem summary_exact_200_cx :
    extract_summary (String.mk (List.replicate 200 'x')) 200
        = String.mk (List.replicate 200 'x') ++ "..."
      ∧ (String.mk (List.replicate 200 'x')).length = 200
      ∧ (extract_summary (String.mk (List.replicate 200 'x')) 200).length = 203 := by
  decide
